import Mathlib

/-
  Verification of the AttrDict repository (bcj/AttrDict).

  Shallow embedding of the Python sources:
    - attrdict/__init__.py   (class AttrDict, function merge)
    - attrdict/attr.py       (class Attr)
    - attrdict/mutableattr.py (class MutableAttr)
    - attrdict/default.py    (class AttrDefault)

  Python values are modelled by the inductive type `PVal`; mappings are
  association lists (Python dicts have unique keys; lookups take the first
  occurrence).  Wrapper objects that occur as *values* (an AttrDict or Attr
  stored inside a mapping) are modelled by their backing list plus their
  configuration; wrapping a wrapper reuses the inner backing, which is
  observationally equal through the whole mapping interface.
-/

/-- A Python dictionary key: either a str (list of characters) or a
non-string hashable (represented by an integer). -/
inductive Key where
  | ks : List Char → Key
  | ki : Int → Key
deriving DecidableEq, Repr

/-- The container classes Attr's `sequence_type` can take in this model
(`tuple` and `list`); `Option SeqKind` adds Python's `None`. -/
inductive SeqKind where
  | stup : SeqKind
  | slist : SeqKind
deriving DecidableEq, Repr

/-- A Python value: scalar, string, sequence (list/tuple), plain dict, or a
wrapper instance (`vAttrDict` carries the `recursive` flag of
attrdict/__init__.py's AttrDict; `vAttr` carries attr.py Attr's
`sequence_type`). -/
inductive PVal where
  | vnone : PVal
  | vint : Int → PVal
  | vstr : List Char → PVal
  | vlist : List PVal → PVal
  | vtup : List PVal → PVal
  | vdict : List (Key × PVal) → PVal
  | vAttrDict : List (Key × PVal) → Bool → PVal
  | vAttr : List (Key × PVal) → Option SeqKind → PVal

/-- First-occurrence lookup in an association list (Python dict lookup). -/
def alookup : List (Key × PVal) → Key → Option PVal
  | [], _ => none
  | (k', v) :: rest, k => if k' = k then some v else alookup rest k

/-- The keys of an association list, in order. -/
def akeys (m : List (Key × PVal)) : List Key := m.map Prod.fst

/-- Key membership (`key in mapping`). -/
def amem (m : List (Key × PVal)) (k : Key) : Bool := (akeys m).contains k

/-- Python `mapping[key] = value`: replace in place if the key is present,
append otherwise (Python dicts keep the original position on update). -/
def aupdate : List (Key × PVal) → Key → PVal → List (Key × PVal)
  | [], k, v => [(k, v)]
  | (k', v') :: rest, k, v =>
      if k' = k then (k, v) :: rest else (k', v') :: aupdate rest k v

/-- Python `del mapping[key]`: drop the entry with the given key. -/
def adelete (m : List (Key × PVal)) (k : Key) : List (Key × PVal) :=
  m.filter (fun p => decide (p.1 ≠ k))

theorem alookup_aupdate_self (m : List (Key × PVal)) (k : Key) (v : PVal) :
    alookup (aupdate m k v) k = some v := by
  induction m with
  | nil => simp [aupdate, alookup]
  | cons p rest ih =>
      by_cases h : p.1 = k
      · simp [aupdate, h, alookup]
      · simp [aupdate, h, alookup, ih]

theorem amem_eq_isSome_alookup (m : List (Key × PVal)) (k : Key) :
    amem m k = (alookup m k).isSome := by
  induction m with
  | nil => simp [amem, akeys, alookup]
  | cons p rest ih =>
      by_cases h : p.1 = k
      · simp [amem, akeys, alookup, h]
      · have h' : (k == p.1) = false := by
          simp
          exact fun hk => h hk.symm
        simp [amem, akeys, alookup, h, h', List.contains_cons]
        simpa [amem, akeys] using ih

theorem amem_aupdate_self (m : List (Key × PVal)) (k : Key) (v : PVal) :
    amem (aupdate m k v) k = true := by
  rw [amem_eq_isSome_alookup, alookup_aupdate_self]
  rfl

theorem alookup_eq_none_of_not_amem (m : List (Key × PVal)) (k : Key)
    (h : amem m k = false) : alookup m k = none := by
  rw [amem_eq_isSome_alookup] at h
  cases hl : alookup m k with
  | none => rfl
  | some v => rw [hl] at h; simp at h

/-- True exactly for ASCII letters, the regex character class [A-Za-z]. -/
def isAsciiAlpha (c : Char) : Bool :=
  ('A' ≤ c && c ≤ 'Z') || ('a' ≤ c && c ≤ 'z')

/-- True exactly for [A-Za-z0-9_], the characters the regex allows after
the first one. -/
def isIdentTail (c : Char) : Bool :=
  isAsciiAlpha c || ('0' ≤ c && c ≤ '9') || c == '_'

/-- Full match against the regular language [A-Za-z][A-Za-z0-9_]* . -/
def matchIdentCore : List Char → Bool
  | [] => false
  | c :: rest => isAsciiAlpha c && rest.all isIdentTail

/-- Python's re.match('^[A-Za-z][A-Za-z0-9_]*$', s) as a predicate: the $
anchor matches at the end of the string or just before a newline that ends
the string, so besides full matches a single trailing newline is accepted. -/
def reMatchName (s : List Char) : Bool :=
  matchIdentCore s || (matchIdentCore s.dropLast && s.getLast? == some '\n')

/-- Attr._valid_name (attr.py lines 207-224) and AttrDict._valid_name
(attrdict/__init__.py lines 299-315): a key is attribute-safe iff it is a
string, re.match('^[A-Za-z][A-Za-z0-9_]*$', name) succeeds, and the name is
not an attribute of the concrete class.  `hasattr(cls, name)` is evaluated
against the concrete class on every call, so the set of class attribute
names is a parameter here. -/
def valid_name (classAttrs : List (List Char)) : Key → Bool
  | Key.ks s => reMatchName s && !(classAttrs.contains s)
  | Key.ki _ => false

/-- Data-key-shaped attribute names defined on attrdict/__init__.py's
AttrDict class (its own methods plus those inherited from MutableMapping
and from type). -/
def adClassAttrs : List (List Char) :=
  ["get", "items", "keys", "values", "pop", "popitem", "clear", "update",
   "setdefault", "mro", "register"].map String.toList

/-- Data-key-shaped attribute names defined on attr.py's Attr class
('get', 'items', 'keys', 'values', 'mro', and 'register' per its
docstring). -/
def attrClassAttrs : List (List Char) :=
  ["get", "items", "keys", "values", "mro", "register"].map String.toList

/-- Data-key-shaped attribute names defined on mutableattr.py's MutableAttr
class (Attr's plus the MutableMapping methods). -/
def maClassAttrs : List (List Char) :=
  ["get", "items", "keys", "values", "mro", "register", "pop", "popitem",
   "clear", "update", "setdefault"].map String.toList

/-- Attribute safety for attrdict/__init__.py's AttrDict. -/
def adValid (k : Key) : Bool := valid_name adClassAttrs k

/-- Attribute safety for attr.py's Attr. -/
def attrValid (k : Key) : Bool := valid_name attrClassAttrs k

/-- Attribute safety for mutableattr.py's MutableAttr. -/
def maValid (k : Key) : Bool := valid_name maClassAttrs k

/-- AttrDict._build (attrdict/__init__.py lines 277-297): mappings are
wrapped in an AttrDict carrying the given recursive flag (a wrapper
argument contributes its backing items, which is what AttrDict.__init__
reads from it); when recursive, non-string sequences have their elements
built with recursive=True and are rebuilt with their own class. -/
def buildAD (rec : Bool) : PVal → PVal
  | PVal.vdict m => PVal.vAttrDict m rec
  | PVal.vAttrDict m _ => PVal.vAttrDict m rec
  | PVal.vAttr m _ => PVal.vAttrDict m rec
  | PVal.vlist es =>
      if rec then PVal.vlist (es.attach.map (fun e => buildAD true e.1))
      else PVal.vlist es
  | PVal.vtup es =>
      if rec then PVal.vtup (es.attach.map (fun e => buildAD true e.1))
      else PVal.vtup es
  | PVal.vnone => PVal.vnone
  | PVal.vint n => PVal.vint n
  | PVal.vstr s => PVal.vstr s
termination_by v => sizeOf v
decreasing_by
  all_goals
    have := List.sizeOf_lt_of_mem e.2
    simp
    omega

/-- Construct the configured sequence container from elements. -/
def mkSeq : SeqKind → List PVal → PVal
  | SeqKind.slist, es => PVal.vlist es
  | SeqKind.stup, es => PVal.vtup es

/-- Attr._build (attr.py lines 226-249): mappings are wrapped in an Attr
with the given sequence_type (a wrapper argument contributes its backing
items); when sequence_type is not None, non-string/bytes sequences are
rebuilt into the configured container with elements built under the same
sequence_type. -/
def buildA (st : Option SeqKind) : PVal → PVal
  | PVal.vdict m => PVal.vAttr m st
  | PVal.vAttrDict m _ => PVal.vAttr m st
  | PVal.vAttr m _ => PVal.vAttr m st
  | PVal.vlist es =>
      match st with
      | some sk => mkSeq sk (es.attach.map (fun e => buildA st e.1))
      | none => PVal.vlist es
  | PVal.vtup es =>
      match st with
      | some sk => mkSeq sk (es.attach.map (fun e => buildA st e.1))
      | none => PVal.vtup es
  | PVal.vnone => PVal.vnone
  | PVal.vint n => PVal.vint n
  | PVal.vstr s => PVal.vstr s
termination_by v => sizeOf v
decreasing_by
  all_goals
    have := List.sizeOf_lt_of_mem e.2
    simp
    omega

/-- The error kinds distinguished by the spec's error taxonomy. -/
inductive PyErr where
  | keyError : PyErr
  | attrError : PyErr
  | typeError : PyErr
deriving DecidableEq, Repr

/-- A Python callable used as a default factory: its result when called
with no arguments, and its result when called with the missing key. -/
structure Callable where
  f0 : PVal
  f1 : Key → PVal

/-- An attrdict/__init__.py AttrDict instance: the backing `_mapping`, the
mirrored instance attributes (the data entries of the instance __dict__),
and the configuration `_recursive`, `_default_factory`, `_pass_key`. -/
structure ADState where
  mapping : List (Key × PVal)
  attrs : List (Key × PVal)
  recursive : Bool
  factory : Option Callable
  passKey : Bool

/-- AttrDict._set (attrdict/__init__.py lines 88-98): write through to the
backing mapping; for attribute-safe keys also mirror the built value as an
instance attribute. -/
def adSet (s : ADState) (k : Key) (v : PVal) : ADState :=
  { s with
    mapping := aupdate s.mapping k v
    attrs := if adValid k then aupdate s.attrs k (buildAD s.recursive v)
             else s.attrs }

/-- AttrDict._delete (lines 100-108): `del self._mapping[key]` (KeyError when
absent), then for attribute-safe keys `super().__delattr__(key)`
(AttributeError when no such instance attribute exists).  The second
component is the error, if any; the first is the state reached — the backing
deletion precedes any attribute error. -/
def adDelete (s : ADState) (k : Key) : ADState × Option PyErr :=
  if amem s.mapping k then
    if adValid k then
      if amem s.attrs k then
        ({ s with mapping := adelete s.mapping k,
                  attrs := adelete s.attrs k }, none)
      else ({ s with mapping := adelete s.mapping k }, some PyErr.attrError)
    else ({ s with mapping := adelete s.mapping k }, none)
  else (s, some PyErr.keyError)

/-- The value AttrDict.__missing__ synthesizes (lines 250-259):
`factory(key)` when `_pass_key` is set, else `factory()`. -/
def adSynth (s : ADState) (k : Key) : PVal :=
  match s.factory with
  | some c => if s.passKey then c.f1 k else c.f0
  | none => PVal.vnone

/-- AttrDict.__missing__ (lines 250-259): store the synthesized value in the
backing mapping (directly, not through _set) and return it.  Only reached
when a factory is configured. -/
def adMissing (s : ADState) (k : Key) : PVal × ADState :=
  (adSynth s k, { s with mapping := aupdate s.mapping k (adSynth s k) })

/-- AttrDict.__getitem__ (lines 173-182): when the key is absent and a
factory is configured, `self[key] = self.__missing__(key)`; then return
`self._mapping[key]` (KeyError when still absent). -/
def adGetitem (s : ADState) (k : Key) : Except PyErr PVal × ADState :=
  if amem s.mapping k then
    ((alookup s.mapping k).elim (Except.error PyErr.keyError) Except.ok, s)
  else
    match s.factory with
    | some _ =>
        let p := adMissing s k
        let s2 := adSet p.2 k p.1
        ((alookup s2.mapping k).elim (Except.error PyErr.keyError) Except.ok,
         s2)
    | none => (Except.error PyErr.keyError, s)

/-- Attribute read on an AttrDict, as a data access: Python finds a mirrored
instance attribute first; otherwise AttrDict.__getattr__ (lines 110-119)
raises AttributeError when no factory is configured, and returns
`self.__missing__(key)` when one is.  Class attributes (the methods) are not
data values and are outside this value model. -/
def adGetattr (s : ADState) (k : Key) : Except PyErr PVal × ADState :=
  match alookup s.attrs k with
  | some v => (Except.ok v, s)
  | none =>
      match s.factory with
      | some _ =>
          let p := adMissing s k
          (Except.ok p.1, p.2)
      | none => (Except.error PyErr.attrError, s)

/-- AttrDict.__call__ (lines 121-138): when the key is absent, synthesize via
__missing__ if a factory is configured, else raise AttributeError; then
return `self._build(self._mapping[key], recursive=self._recursive)`. -/
def adCall (s : ADState) (k : Key) : Except PyErr PVal × ADState :=
  if amem s.mapping k then
    (Except.ok (buildAD s.recursive ((alookup s.mapping k).getD PVal.vnone)),
     s)
  else
    match s.factory with
    | some _ =>
        let p := adMissing s k
        (Except.ok
          (buildAD p.2.recursive ((alookup p.2.mapping k).getD PVal.vnone)),
         p.2)
    | none => (Except.error PyErr.attrError, s)

/-- AttrDict.get (lines 57-65): `self._mapping.get(key, default)`; never
synthesizes, never mutates. -/
def adGet (s : ADState) (k : Key) (d : PVal) : PVal × ADState :=
  ((alookup s.mapping k).getD d, s)

/-- AttrDict.__setattr__ without force (lines 140-152): TypeError for
attribute-unsafe keys, otherwise the _set primitive. -/
def adSetattr (s : ADState) (k : Key) (v : PVal) : ADState × Option PyErr :=
  if adValid k then (adSet s k v, none) else (s, some PyErr.typeError)

/-- AttrDict.__delattr__ (lines 154-163): TypeError when the key is
attribute-unsafe or absent from the backing mapping, otherwise the _delete
primitive. -/
def adDelattr (s : ADState) (k : Key) : ADState × Option PyErr :=
  if adValid k && amem s.mapping k then adDelete s k
  else (s, some PyErr.typeError)

/-- AttrDict.__init__ (lines 25-55): record the configuration (`_pass_key`
is forced to False when no factory is given) and the mapping itself, then
`setattr(self, key, value)` for every attribute-safe key of the mapping
(each such setattr runs _set on an already-present key). -/
def adInit (m : List (Key × PVal)) (rec : Bool) (factory : Option Callable)
    (passKey : Bool) : ADState :=
  let s0 : ADState :=
    { mapping := m, attrs := [], recursive := rec, factory := factory,
      passKey := if factory.isSome then passKey else false }
  m.foldl (fun s p => if adValid p.1 then adSet s p.1 p.2 else s) s0

/-- MutableMapping.pop, as inherited by AttrDict (CPython
_collections_abc.py): read `self[key]` (catching KeyError into the default,
when one is given), then `del self[key]`. -/
def adPop (s : ADState) (k : Key) (d : Option PVal) :
    Except PyErr PVal × ADState :=
  match adGetitem s k with
  | (Except.ok v, s1) =>
      let q := adDelete s1 k
      match q.2 with
      | none => (Except.ok v, q.1)
      | some e => (Except.error e, q.1)
  | (Except.error e, s1) =>
      match d with
      | some dv => (Except.ok dv, s1)
      | none => (Except.error e, s1)

/-- MutableMapping.popitem, as inherited by AttrDict: take the first key of
the iteration order (KeyError on an empty mapping), read it, delete it. -/
def adPopitem (s : ADState) : Except PyErr (Key × PVal) × ADState :=
  match s.mapping with
  | [] => (Except.error PyErr.keyError, s)
  | (k, _) :: _ =>
      match adGetitem s k with
      | (Except.ok v, s1) =>
          let q := adDelete s1 k
          match q.2 with
          | none => (Except.ok (k, v), q.1)
          | some e => (Except.error e, q.1)
      | (Except.error e, s1) => (Except.error e, s1)

theorem adDelete_fst_mapping (s : ADState) (k : Key) :
    ((adDelete s k).1).mapping =
      if amem s.mapping k then adelete s.mapping k else s.mapping := by
  unfold adDelete
  split_ifs <;> rfl

theorem adGetitem_of_amem (s : ADState) (k : Key)
    (h : amem s.mapping k = true) :
    adGetitem s k =
      ((alookup s.mapping k).elim (Except.error PyErr.keyError) Except.ok,
       s) := by
  simp [adGetitem, h]

theorem adelete_length_lt (m : List (Key × PVal)) (k : Key)
    (h : amem m k = true) : (adelete m k).length < m.length := by
  induction m with
  | nil => simp [amem, akeys] at h
  | cons p rest ih =>
      by_cases hk : p.1 = k
      · have hdrop : adelete (p :: rest) k = adelete rest k := by
          simp [adelete, hk]
        rw [hdrop]
        have h3 : (adelete rest k).length ≤ rest.length :=
          List.length_filter_le (fun p : Key × PVal => decide (p.1 ≠ k)) rest
        simp only [List.length_cons]
        omega
      · have hmem : amem rest k = true := by
          simp [amem, akeys, List.contains_cons] at h ⊢
          rcases h with h | h
          · exact absurd h.symm hk
          · exact h
        have hkeep : adelete (p :: rest) k = p :: adelete rest k := by
          simp [adelete, hk]
        rw [hkeep]
        simpa using Nat.succ_lt_succ (ih hmem)

theorem adPopitem_length_lt (s : ADState) (k : Key) (v : PVal)
    (rest : List (Key × PVal)) (h : s.mapping = (k, v) :: rest) :
    ((adPopitem s).2).mapping.length < s.mapping.length := by
  have hm : amem s.mapping k = true := by
    rw [h]; simp [amem, akeys, List.contains_cons]
  have hsome : (alookup s.mapping k).isSome = true := by
    rw [← amem_eq_isSome_alookup]; exact hm
  obtain ⟨w, hw⟩ := Option.isSome_iff_exists.mp hsome
  unfold adPopitem
  rw [h]
  have hback : ((k, v) :: rest : List (Key × PVal)) = s.mapping := h.symm
  simp only []
  rw [hback, adGetitem_of_amem s k hm, hw]
  simp only [Option.elim]
  by_cases hval : adValid k
  · by_cases hat : amem s.attrs k
    · simp [adDelete, hm, hval, hat]
      exact adelete_length_lt s.mapping k hm
    · simp [adDelete, hm, hval, hat]
      exact adelete_length_lt s.mapping k hm
  · simp [adDelete, hm, hval]
    exact adelete_length_lt s.mapping k hm

/-- MutableMapping.clear, as inherited by AttrDict: popitem until the
mapping is empty (the final popitem's KeyError is swallowed). -/
def adClear (s : ADState) : ADState :=
  match h : s.mapping with
  | [] => s
  | (k, v) :: rest => adClear (adPopitem s).2
termination_by s.mapping.length
decreasing_by exact adPopitem_length_lt s k v rest h

/-- MutableMapping.update, as inherited by AttrDict: `self[key] = value`
for every item of the other mapping, in its iteration order. -/
def adUpdate (s : ADState) (kvs : List (Key × PVal)) : ADState :=
  kvs.foldl (fun t p => adSet t p.1 p.2) s

/-- MutableMapping.setdefault, as inherited by AttrDict: return `self[key]`
when that succeeds; on KeyError store the default via `self[key] = default`
and return it. -/
def adSetdefault (s : ADState) (k : Key) (d : PVal) :
    Except PyErr PVal × ADState :=
  match adGetitem s k with
  | (Except.ok v, s1) => (Except.ok v, s1)
  | (Except.error _, s1) => (Except.ok d, adSet s1 k d)

/-- The mutations of the mutable-mapping interface: the primitive
set/delete entry points and the MutableMapping-derived operations. -/
inductive Mut where
  | setitem : Key → PVal → Mut
  | setattr : Key → PVal → Mut
  | delitem : Key → Mut
  | delattr : Key → Mut
  | pop : Key → Option PVal → Mut
  | popitem : Mut
  | clear : Mut
  | update : List (Key × PVal) → Mut
  | setdefault : Key → PVal → Mut

/-- Run one mutation on an AttrDict; the second component is the raised
error, if any (`none` means the operation completed). -/
def applyMut (s : ADState) : Mut → ADState × Option PyErr
  | Mut.setitem k v => (adSet s k v, none)
  | Mut.setattr k v => adSetattr s k v
  | Mut.delitem k => adDelete s k
  | Mut.delattr k => adDelattr s k
  | Mut.pop k d =>
      let r := adPop s k d
      (r.2, match r.1 with | Except.ok _ => none | Except.error e => some e)
  | Mut.popitem =>
      let r := adPopitem s
      (r.2, match r.1 with | Except.ok _ => none | Except.error e => some e)
  | Mut.clear => (adClear s, none)
  | Mut.update kvs => (adUpdate s kvs, none)
  | Mut.setdefault k d =>
      let r := adSetdefault s k d
      (r.2, match r.1 with | Except.ok _ => none | Except.error e => some e)

/-- The attribute mirror of a backing mapping: its attribute-safe entries,
with values wrapped by AttrDict._build under the instance's recursive
flag. -/
def mirror (rec : Bool) : List (Key × PVal) → List (Key × PVal)
  | [] => []
  | p :: rest =>
      if adValid p.1 then (p.1, buildAD rec p.2) :: mirror rec rest
      else mirror rec rest

/-- The attribute-mirroring invariant of an AttrDict instance: the mirrored
instance attributes are exactly the attribute-safe backing entries, holding
the built values. -/
def adInv (s : ADState) : Prop := s.attrs = mirror s.recursive s.mapping

theorem aupdate_aupdate_self (m : List (Key × PVal)) (k : Key)
    (v w : PVal) : aupdate (aupdate m k v) k w = aupdate m k w := by
  induction m with
  | nil => simp [aupdate]
  | cons p rest ih =>
      by_cases hp : p.1 = k
      · simp [aupdate, hp]
      · simp [aupdate, hp, ih]

theorem mirror_aupdate_valid (rec : Bool) (m : List (Key × PVal)) (k : Key)
    (v : PVal) (hk : adValid k = true) :
    mirror rec (aupdate m k v) = aupdate (mirror rec m) k (buildAD rec v) := by
  induction m with
  | nil => simp [aupdate, mirror, hk]
  | cons p rest ih =>
      by_cases hp : p.1 = k
      · subst hp
        simp [aupdate, mirror, hk]
      · by_cases hv : adValid p.1
        · simp [aupdate, mirror, hp, hv, hk, ih]
        · simp [aupdate, mirror, hp, hv, hk, ih]

theorem mirror_aupdate_invalid (rec : Bool) (m : List (Key × PVal))
    (k : Key) (v : PVal) (hk : adValid k = false) :
    mirror rec (aupdate m k v) = mirror rec m := by
  induction m with
  | nil => simp [aupdate, mirror, hk]
  | cons p rest ih =>
      by_cases hp : p.1 = k
      · subst hp
        simp [aupdate, mirror, hk]
      · by_cases hv : adValid p.1
        · simp [aupdate, mirror, hp, hv, ih]
        · simp [aupdate, mirror, hp, hv, ih]

theorem mirror_adelete (rec : Bool) (m : List (Key × PVal)) (k : Key) :
    mirror rec (adelete m k) = adelete (mirror rec m) k := by
  induction m with
  | nil => simp [adelete, mirror]
  | cons p rest ih =>
      obtain ⟨pk, pv⟩ := p
      by_cases hp : pk = k
      · subst hp
        by_cases hv : adValid pk
        · simp [adelete, mirror, hv] at ih ⊢
          exact ih
        · simp [adelete, mirror, hv] at ih ⊢
          exact ih
      · by_cases hv : adValid pk
        · simp [adelete, mirror, hp, hv] at ih ⊢
          exact ih
        · simp [adelete, mirror, hp, hv] at ih ⊢
          exact ih

theorem alookup_mirror (rec : Bool) (m : List (Key × PVal)) (k : Key) :
    alookup (mirror rec m) k =
      if adValid k then (alookup m k).map (buildAD rec) else none := by
  induction m with
  | nil => simp [mirror, alookup]
  | cons p rest ih =>
      by_cases hp : p.1 = k
      · subst hp
        by_cases hv : adValid p.1
        · simp [mirror, alookup, hv]
        · simp [mirror, alookup, hv, ih]
      · by_cases hv : adValid p.1
        · simp [mirror, alookup, hp, hv, ih]
        · simp [mirror, alookup, hp, hv, ih]

theorem amem_mirror (rec : Bool) (m : List (Key × PVal)) (k : Key) :
    amem (mirror rec m) k = (adValid k && amem m k) := by
  rw [amem_eq_isSome_alookup, alookup_mirror, amem_eq_isSome_alookup]
  by_cases hv : adValid k
  · simp [hv]
  · simp [hv]

theorem adelete_of_not_amem (m : List (Key × PVal)) (k : Key)
    (h : amem m k = false) : adelete m k = m := by
  induction m with
  | nil => simp [adelete]
  | cons p rest ih =>
      have hp : ¬ (p.1 = k) := by
        intro hk
        simp [amem, akeys, List.contains_cons, hk] at h
      have hrest : amem rest k = false := by
        simp [amem, akeys, List.contains_cons] at h
        simpa [amem, akeys] using h.2
      simp [adelete, hp] at ih ⊢
      exact ih hrest

theorem inv_adSet (s : ADState) (k : Key) (v : PVal) (h : adInv s) :
    adInv (adSet s k v) := by
  unfold adInv at h ⊢
  unfold adSet
  by_cases hv : adValid k
  · simp only [hv, if_true]
    rw [h, mirror_aupdate_valid _ _ _ _ hv]
  · have hv' : adValid k = false := by simpa using hv
    simp only [hv', Bool.false_eq_true, if_false]
    rw [h, mirror_aupdate_invalid _ _ _ _ hv']

theorem amem_attrs_of_inv (s : ADState) (k : Key) (h : adInv s) :
    amem s.attrs k = (adValid k && amem s.mapping k) := by
  rw [h, amem_mirror]

theorem adDelete_eq_of_inv (s : ADState) (k : Key) (h : adInv s) :
    adDelete s k =
      if amem s.mapping k then
        ({ s with mapping := adelete s.mapping k,
                  attrs := adelete s.attrs k }, none)
      else (s, some PyErr.keyError) := by
  unfold adDelete
  by_cases hm : amem s.mapping k
  · by_cases hv : adValid k
    · have hat : amem s.attrs k = true := by
        rw [amem_attrs_of_inv s k h, hv, hm]
        rfl
      simp [hm, hv, hat]
    · have hv' : adValid k = false := by simpa using hv
      have hat : amem s.attrs k = false := by
        rw [amem_attrs_of_inv s k h, hv']
        rfl
      have hkeep : adelete s.attrs k = s.attrs :=
        adelete_of_not_amem s.attrs k hat
      simp [hm, hv, hkeep]
  · simp [hm]

theorem inv_adDelete (s : ADState) (k : Key) (h : adInv s) :
    adInv ((adDelete s k).1) := by
  rw [adDelete_eq_of_inv s k h]
  by_cases hm : amem s.mapping k
  · simp only [hm, if_true]
    unfold adInv at h ⊢
    rw [mirror_adelete, ← h]
  · simp only [hm, Bool.false_eq_true, if_false]
    exact h

theorem adGetitem_snd (s : ADState) (k : Key) :
    (adGetitem s k).2 =
      if amem s.mapping k then s
      else
        match s.factory with
        | some _ =>
            adSet { s with mapping := aupdate s.mapping k (adSynth s k) } k
              (adSynth s k)
        | none => s := by
  unfold adGetitem adMissing
  by_cases hm : amem s.mapping k
  · simp [hm]
  · simp only [hm, Bool.false_eq_true, if_false]
    cases s.factory <;> rfl

theorem inv_adGetitem_snd (s : ADState) (k : Key) (h : adInv s) :
    adInv ((adGetitem s k).2) := by
  rw [adGetitem_snd]
  by_cases hm : amem s.mapping k
  · simp only [hm, if_true]
    exact h
  · simp only [hm, Bool.false_eq_true, if_false]
    cases hf : s.factory with
    | none => exact h
    | some c =>
        unfold adInv at h
        unfold adInv adSet
        simp only []
        rw [aupdate_aupdate_self]
        by_cases hv : adValid k
        · simp only [hv, if_true]
          rw [h, mirror_aupdate_valid _ _ _ _ hv]
        · have hv' : adValid k = false := by simpa using hv
          simp only [hv', Bool.false_eq_true, if_false]
          rw [h, mirror_aupdate_invalid _ _ _ _ hv']

theorem inv_adPop_snd (s : ADState) (k : Key) (d : Option PVal)
    (h : adInv s) : adInv ((adPop s k d).2) := by
  have h1 : adInv ((adGetitem s k).2) := inv_adGetitem_snd s k h
  unfold adPop
  split
  case h_1 v s1 hg =>
      have h1' : adInv s1 := by rw [hg] at h1; simpa using h1
      have h2 : adInv ((adDelete s1 k).1) := inv_adDelete s1 k h1'
      generalize hd : adDelete s1 k = q2 at h2 ⊢
      obtain ⟨s2, e⟩ := q2
      cases e <;> simpa using h2
  case h_2 e s1 hg =>
      have h1' : adInv s1 := by rw [hg] at h1; simpa using h1
      cases d <;> simpa using h1'

theorem inv_adPopitem_snd (s : ADState) (h : adInv s) :
    adInv ((adPopitem s).2) := by
  unfold adPopitem
  cases hm : s.mapping with
  | nil => exact h
  | cons p rest =>
      obtain ⟨k, v⟩ := p
      simp only []
      split
      case h_1 w s1 hg =>
        have h1 : adInv ((adGetitem s k).2) := inv_adGetitem_snd s k h
        have h1' : adInv s1 := by rw [hg] at h1; simpa using h1
        have h2 : adInv ((adDelete s1 k).1) := inv_adDelete s1 k h1'
        split <;> simpa using h2
      case h_2 e s1 hg =>
        have h1 : adInv ((adGetitem s k).2) := inv_adGetitem_snd s k h
        have h1' : adInv s1 := by rw [hg] at h1; simpa using h1
        simpa using h1'

theorem inv_adClear (s : ADState) (h : adInv s) : adInv (adClear s) := by
  induction s using adClear.induct with
  | case1 s hm => rw [adClear, hm]; exact h
  | case2 s k v rest hm ih =>
      rw [adClear, hm]
      exact ih (inv_adPopitem_snd s h)

theorem inv_adUpdate (s : ADState) (kvs : List (Key × PVal))
    (h : adInv s) : adInv (adUpdate s kvs) := by
  induction kvs generalizing s with
  | nil => exact h
  | cons p rest ih =>
      unfold adUpdate at ih ⊢
      simp only [List.foldl_cons]
      exact ih (adSet s p.1 p.2) (inv_adSet s p.1 p.2 h)

theorem inv_adSetdefault_snd (s : ADState) (k : Key) (d : PVal)
    (h : adInv s) : adInv ((adSetdefault s k d).2) := by
  have h1 : adInv ((adGetitem s k).2) := inv_adGetitem_snd s k h
  unfold adSetdefault
  rcases hg : adGetitem s k with ⟨r, s1⟩
  have h1' : adInv s1 := by rw [hg] at h1; simpa using h1
  cases r with
  | ok v => simpa using h1'
  | error e => simpa using inv_adSet s1 k d h1'

theorem inv_adSetattr (s : ADState) (k : Key) (v : PVal) (h : adInv s) :
    adInv ((adSetattr s k v).1) := by
  unfold adSetattr
  by_cases hv : adValid k
  · simpa [hv] using inv_adSet s k v h
  · simpa [hv] using h

theorem inv_adDelattr (s : ADState) (k : Key) (h : adInv s) :
    adInv ((adDelattr s k).1) := by
  unfold adDelattr
  by_cases hc : adValid k && amem s.mapping k
  · simpa [hc] using inv_adDelete s k h
  · simpa [hc] using h

/-- Any mutation preserves the attribute-mirroring invariant of an
AttrDict instance (also on the partial state reached by a failing one). -/
theorem inv_applyMut (s : ADState) (mu : Mut) (h : adInv s) :
    adInv ((applyMut s mu).1) := by
  cases mu with
  | setitem k v => exact inv_adSet s k v h
  | setattr k v => exact inv_adSetattr s k v h
  | delitem k => exact inv_adDelete s k h
  | delattr k => exact inv_adDelattr s k h
  | pop k d => exact inv_adPop_snd s k d h
  | popitem => exact inv_adPopitem_snd s h
  | clear => exact inv_adClear s h
  | update kvs => exact inv_adUpdate s kvs h
  | setdefault k d => exact inv_adSetdefault_snd s k d h

/-- Two AttrDict states share their configuration fields. -/
def cfgEq (t s : ADState) : Prop :=
  t.recursive = s.recursive ∧ t.factory = s.factory ∧ t.passKey = s.passKey

theorem cfgEq_refl (s : ADState) : cfgEq s s := ⟨rfl, rfl, rfl⟩

theorem cfgEq_trans (a b c : ADState) (h1 : cfgEq a b) (h2 : cfgEq b c) :
    cfgEq a c :=
  ⟨h1.1.trans h2.1, h1.2.1.trans h2.2.1, h1.2.2.trans h2.2.2⟩

theorem cfg_adSet (s : ADState) (k : Key) (v : PVal) :
    cfgEq (adSet s k v) s := ⟨rfl, rfl, rfl⟩

theorem cfg_adDelete (s : ADState) (k : Key) :
    cfgEq ((adDelete s k).1) s := by
  unfold adDelete
  split_ifs <;> exact ⟨rfl, rfl, rfl⟩

theorem cfg_adGetitem (s : ADState) (k : Key) :
    cfgEq ((adGetitem s k).2) s := by
  rw [adGetitem_snd]
  split_ifs with hm
  · exact cfgEq_refl s
  · cases hf : s.factory with
    | none => exact cfgEq_refl s
    | some c => exact ⟨rfl, hf.symm, rfl⟩

theorem cfg_adPop (s : ADState) (k : Key) (d : Option PVal) :
    cfgEq ((adPop s k d).2) s := by
  have hg : cfgEq ((adGetitem s k).2) s := cfg_adGetitem s k
  unfold adPop
  split
  case h_1 v s1 h =>
      have h1 : cfgEq s1 s := by rw [h] at hg; simpa using hg
      have h2 : cfgEq ((adDelete s1 k).1) s1 := cfg_adDelete s1 k
      generalize hd : adDelete s1 k = q2 at h2 ⊢
      obtain ⟨s2, e⟩ := q2
      have h3 : cfgEq s2 s := cfgEq_trans _ _ _ (by simpa using h2) h1
      cases e <;> simpa using h3
  case h_2 e s1 h =>
      have h1 : cfgEq s1 s := by rw [h] at hg; simpa using hg
      cases d <;> simpa using h1

theorem cfg_adPopitem (s : ADState) : cfgEq ((adPopitem s).2) s := by
  unfold adPopitem
  cases hm : s.mapping with
  | nil => exact cfgEq_refl s
  | cons p rest =>
      obtain ⟨k, v⟩ := p
      simp only []
      split
      case h_1 w s1 hg =>
        have h1 : cfgEq s1 s := by
          have := cfg_adGetitem s k
          rw [hg] at this
          simpa using this
        have h2 : cfgEq ((adDelete s1 k).1) s1 := cfg_adDelete s1 k
        generalize hd : adDelete s1 k = q2 at h2 ⊢
        obtain ⟨s2, e⟩ := q2
        have h3 : cfgEq s2 s := cfgEq_trans _ _ _ (by simpa using h2) h1
        cases e <;> simpa using h3
      case h_2 e s1 hg =>
        have := cfg_adGetitem s k
        rw [hg] at this
        simpa using this

theorem cfg_adClear (s : ADState) : cfgEq (adClear s) s := by
  induction s using adClear.induct with
  | case1 s hm => rw [adClear, hm]; exact cfgEq_refl s
  | case2 s k v rest hm ih =>
      rw [adClear, hm]
      exact cfgEq_trans _ _ _ ih (cfg_adPopitem s)

theorem cfg_adUpdate (s : ADState) (kvs : List (Key × PVal)) :
    cfgEq (adUpdate s kvs) s := by
  induction kvs generalizing s with
  | nil => exact cfgEq_refl s
  | cons p rest ih =>
      unfold adUpdate at ih ⊢
      simp only [List.foldl_cons]
      exact cfgEq_trans _ _ _ (ih (adSet s p.1 p.2)) (cfg_adSet s p.1 p.2)

theorem cfg_adSetdefault (s : ADState) (k : Key) (d : PVal) :
    cfgEq ((adSetdefault s k d).2) s := by
  have hg : cfgEq ((adGetitem s k).2) s := cfg_adGetitem s k
  unfold adSetdefault
  rcases h : adGetitem s k with ⟨r, s1⟩
  have h1 : cfgEq s1 s := by rw [h] at hg; simpa using hg
  cases r with
  | ok v => simpa using h1
  | error e =>
      simpa using cfgEq_trans _ _ _ (cfg_adSet s1 k d) h1

theorem cfg_adSetattr (s : ADState) (k : Key) (v : PVal) :
    cfgEq ((adSetattr s k v).1) s := by
  unfold adSetattr
  split_ifs <;> first
    | exact cfg_adSet s k v
    | exact cfgEq_refl s

theorem cfg_adDelattr (s : ADState) (k : Key) :
    cfgEq ((adDelattr s k).1) s := by
  unfold adDelattr
  split_ifs <;> first
    | exact cfg_adDelete s k
    | exact cfgEq_refl s

/-- Mutations do not change the configuration of an AttrDict instance. -/
theorem cfg_applyMut (s : ADState) (mu : Mut) :
    cfgEq ((applyMut s mu).1) s := by
  cases mu with
  | setitem k v => exact cfg_adSet s k v
  | setattr k v => exact cfg_adSetattr s k v
  | delitem k => exact cfg_adDelete s k
  | delattr k => exact cfg_adDelattr s k
  | pop k d => exact cfg_adPop s k d
  | popitem => exact cfg_adPopitem s
  | clear => exact cfg_adClear s
  | update kvs => exact cfg_adUpdate s kvs
  | setdefault k d => exact cfg_adSetdefault s k d

/-- On a factory-free AttrDict satisfying the mirroring invariant,
attribute access returns the built form of the stored value exactly for
attribute-safe present keys, and AttributeError otherwise. -/
theorem adGetattr_char (s : ADState) (k : Key) (hf : s.factory = none)
    (h : adInv s) :
    (adGetattr s k).1 =
      (match alookup s.mapping k with
       | some v =>
           if adValid k then Except.ok (buildAD s.recursive v)
           else Except.error PyErr.attrError
       | none => Except.error PyErr.attrError) := by
  unfold adGetattr
  rw [h, alookup_mirror]
  by_cases hv : adValid k
  · simp only [hv, if_true]
    cases hl : alookup s.mapping k with
    | some v => simp
    | none => simp [hf]
  · have hv' : adValid k = false := by simpa using hv
    simp only [hv', Bool.false_eq_true, if_false]
    cases hl : alookup s.mapping k <;> simp [hf, hv']

theorem adClear_mapping_empty (s : ADState) : (adClear s).mapping = [] := by
  induction s using adClear.induct with
  | case1 s hm => rw [adClear, hm]; exact hm
  | case2 s k v rest hm ih => rw [adClear, hm]; exact ih

theorem aupdate_eq_self_of_alookup (m : List (Key × PVal)) (k : Key)
    (v : PVal) (h : alookup m k = some v) : aupdate m k v = m := by
  induction m with
  | nil => simp [alookup] at h
  | cons p rest ih =>
      obtain ⟨pk, pv⟩ := p
      by_cases hp : pk = k
      · subst hp
        simp [alookup] at h
        simp [aupdate, h]
      · simp [alookup, hp] at h
        simp [aupdate, hp, ih h]

theorem aupdate_eq_append_of_not_amem (m : List (Key × PVal)) (k : Key)
    (v : PVal) (h : amem m k = false) : aupdate m k v = m ++ [(k, v)] := by
  induction m with
  | nil => simp [aupdate]
  | cons p rest ih =>
      have hp : ¬ (p.1 = k) := by
        intro hk
        simp [amem, akeys, List.contains_cons, hk] at h
      have hrest : amem rest k = false := by
        simp [amem, akeys, List.contains_cons] at h
        simpa [amem, akeys] using h.2
      simp [aupdate, hp, ih hrest]

theorem akeys_cons (p : Key × PVal) (rest : List (Key × PVal)) :
    akeys (p :: rest) = p.1 :: akeys rest := rfl

theorem alookup_of_mem_nodup (m : List (Key × PVal)) (p : Key × PVal)
    (hnd : (akeys m).Nodup) (hp : p ∈ m) : alookup m p.1 = some p.2 := by
  induction m with
  | nil => simp at hp
  | cons q rest ih =>
      rw [akeys_cons] at hnd
      rcases List.mem_cons.mp hp with hq | hq
      · subst hq
        simp [alookup]
      · have hnk : ¬ (q.1 = p.1) := by
          intro he
          have hmem : p.1 ∈ akeys rest := by
            simp [akeys]
            exact ⟨p.2, hq⟩
          have := (List.nodup_cons.mp hnd).1
          rw [he] at this
          exact this hmem
        have hnd' : (akeys rest).Nodup := (List.nodup_cons.mp hnd).2
        simp [alookup, hnk]
        exact ih hnd' hq

theorem amem_append (m1 m2 : List (Key × PVal)) (k : Key) :
    amem (m1 ++ m2) k = (amem m1 k || amem m2 k) := by
  simp only [amem, akeys, List.map_append]
  by_cases h1 : k ∈ List.map Prod.fst m1 <;>
    by_cases h2 : k ∈ List.map Prod.fst m2 <;>
      simp [List.mem_append, h1, h2]

theorem adInit_fold (todo : List (Key × PVal)) (s : ADState)
    (hlk : ∀ p ∈ todo, alookup s.mapping p.1 = some p.2)
    (hnd : (akeys todo).Nodup)
    (hdis : ∀ p ∈ todo, amem s.attrs p.1 = false) :
    todo.foldl (fun t p => if adValid p.1 then adSet t p.1 p.2 else t) s
      = { s with attrs := s.attrs ++ mirror s.recursive todo } := by
  induction todo generalizing s with
  | nil => simp [mirror]
  | cons p rest ih =>
      obtain ⟨k, v⟩ := p
      rw [akeys_cons] at hnd
      have hk_rest : ¬ (k ∈ akeys rest) := (List.nodup_cons.mp hnd).1
      have hnd' : (akeys rest).Nodup := (List.nodup_cons.mp hnd).2
      simp only [List.foldl_cons]
      by_cases hv : adValid k
      · have hmap : aupdate s.mapping k v = s.mapping :=
          aupdate_eq_self_of_alookup s.mapping k v
            (hlk (k, v) (List.mem_cons_self _ _))
        have hatt : aupdate s.attrs k (buildAD s.recursive v)
            = s.attrs ++ [(k, buildAD s.recursive v)] :=
          aupdate_eq_append_of_not_amem s.attrs k _
            (hdis (k, v) (List.mem_cons_self _ _))
        have hstep : adSet s k v
            = { s with attrs := s.attrs ++ [(k, buildAD s.recursive v)] } := by
          unfold adSet
          rw [hmap, hatt]
          simp [hv]
        rw [if_pos hv, hstep]
        rw [ih]
        · simp [mirror, hv, List.append_assoc]
        · intro p hp
          exact hlk p (List.mem_cons_of_mem _ hp)
        · exact hnd'
        · intro p hp
          rw [amem_append]
          have h1 : amem s.attrs p.1 = false :=
            hdis p (List.mem_cons_of_mem _ hp)
          have h2 : amem [(k, buildAD s.recursive v)] p.1 = false := by
            have : ¬ (p.1 = k) := by
              intro he
              apply hk_rest
              rw [← he]
              simp [akeys]
              exact ⟨p.2, hp⟩
            simp [amem, akeys, List.contains_cons]
            exact fun hc => this hc
          rw [h1, h2]
          rfl
      · have hv' : adValid k = false := by simpa using hv
        rw [if_neg hv]
        rw [ih]
        · simp [mirror, hv']
        · intro p hp
          exact hlk p (List.mem_cons_of_mem _ hp)
        · exact hnd'
        · intro p hp
          exact hdis p (List.mem_cons_of_mem _ hp)

/-- AttrDict.__init__ establishes the attribute-mirroring invariant: after
construction every attribute-safe key of the mapping is mirrored as an
instance attribute holding the built value. -/
theorem inv_adInit (m : List (Key × PVal)) (rec : Bool)
    (factory : Option Callable) (passKey : Bool)
    (hnd : (akeys m).Nodup) : adInv (adInit m rec factory passKey) := by
  unfold adInit adInv
  simp only []
  rw [adInit_fold]
  · simp
  · intro p hp
    exact alookup_of_mem_nodup m p hnd hp
  · exact hnd
  · intro p hp
    rfl

/-- The string key "foo". -/
def kFoo : Key := Key.ks ['f', 'o', 'o']

/-- The string key "a". -/
def kA : Key := Key.ks ['a']

/-- The string key "_x" (leading underscore: not attribute-safe). -/
def kUnder : Key := Key.ks ['_', 'x']

/-- A default factory returning 0 however it is called. -/
def c2fac : Callable := { f0 := PVal.vint 0, f1 := fun _ => PVal.vint 0 }

/-- A factory-configured AttrDict after one completed mutation. -/
def c2state : ADState :=
  (applyMut (adInit [] true (some c2fac) false)
    (Mut.setitem kA (PVal.vint 1))).1

/-- Claim C2, counterexample: on an AttrDict configured with a default
factory, after a completed mutation, the key "_x" is absent from the backing
mapping and is not attribute-safe, yet attribute access on it succeeds (the
__getattr__ fallback synthesizes a value), so "accessible as an attribute
iff present in the backing mapping and attribute-safe" is false as stated. -/
theorem claimC2_counterexample :
    (applyMut (adInit [] true (some c2fac) false)
        (Mut.setitem kA (PVal.vint 1))).2 = none
    ∧ alookup c2state.mapping kUnder = none
    ∧ adValid kUnder = false
    ∧ (adGetattr c2state kUnder).1 = Except.ok (PVal.vint 0) := by
  refine ⟨rfl, rfl, by decide, rfl⟩

/-- Claim C2 (amended: restricted to instances with no default factory
configured; with a factory, attribute access synthesizes values for absent
keys, even attribute-unsafe ones): for every mutable AttrDict wrapper
without a default factory and every mutation (primitive set/delete through
item or attribute syntax, and the derived pop, popitem, clear, update,
setdefault), if the mutation completes then the mirroring invariant holds,
a key is accessible as an attribute iff it is present in the backing
mapping and attribute-safe, the value obtained by attribute access is the
build-wrapped form of the value currently stored, and after clear() the
backing is empty, so no previously-mirrored attribute remains accessible. -/
theorem claimC2_mutation_mirror (s : ADState) (mu : Mut) (s' : ADState)
    (hf : s.factory = none) (hinv : adInv s)
    (hok : applyMut s mu = (s', none)) :
    adInv s' ∧
    (∀ k, (adGetattr s' k).1 =
      (match alookup s'.mapping k with
       | some v =>
           if adValid k then Except.ok (buildAD s'.recursive v)
           else Except.error PyErr.attrError
       | none => Except.error PyErr.attrError)) ∧
    (mu = Mut.clear → s'.mapping = []) := by
  have hs' : s' = (applyMut s mu).1 := by rw [hok]
  subst hs'
  refine ⟨inv_applyMut s mu hinv, ?_, ?_⟩
  · intro k
    apply adGetattr_char
    · rw [(cfg_applyMut s mu).2.1, hf]
    · exact inv_applyMut s mu hinv
  · intro hclear
    subst hclear
    exact adClear_mapping_empty s

/-- Witness for the amended claim C2 at a concrete instance: an AttrDict
built over {'foo': 1}, cleared. -/
theorem claimC2_mutation_mirror_witness :
    adInv (adInit [(kFoo, PVal.vint 1)] true none false)
    ∧ adInv ((applyMut (adInit [(kFoo, PVal.vint 1)] true none false)
        Mut.clear).1)
    ∧ ((applyMut (adInit [(kFoo, PVal.vint 1)] true none false)
        Mut.clear).1).mapping = [] := by
  have hinv : adInv (adInit [(kFoo, PVal.vint 1)] true none false) := by rfl
  have hmain := claimC2_mutation_mirror
    (adInit [(kFoo, PVal.vint 1)] true none false) Mut.clear
    ((applyMut (adInit [(kFoo, PVal.vint 1)] true none false) Mut.clear).1)
    rfl hinv rfl
  exact ⟨hinv, hmain.1, hmain.2.2 rfl⟩

/-- An attr.py Attr instance: the backing `_mapping` and `_sequence_type`.
Attr mirrors no instance attributes; attribute reads are computed on the
fly by __getattr__. -/
structure AttrS where
  mapping : List (Key × PVal)
  seqType : Option SeqKind

/-- Attr.__init__ (attr.py lines 49-65): record sequence_type and keep the
given mapping object itself. -/
def attrInit (items : List (Key × PVal)) (st : Option SeqKind) : AttrS :=
  { mapping := items, seqType := st }

/-- Attr.__getitem__ (attr.py lines 67-74): the raw backing value, KeyError
when absent; no wrapping. -/
def attrGetitem (s : AttrS) (k : Key) : Except PyErr PVal :=
  match alookup s.mapping k with
  | some v => Except.ok v
  | none => Except.error PyErr.keyError

/-- Attr.__call__ (attr.py lines 88-106): AttributeError when the key is
absent, else the build-wrapped current backing value. -/
def attrCall (s : AttrS) (k : Key) : Except PyErr PVal :=
  if amem s.mapping k then
    Except.ok (buildA s.seqType ((alookup s.mapping k).getD PVal.vnone))
  else Except.error PyErr.attrError

/-- Attr.__getattr__ (attr.py lines 108-121): the build-wrapped current
backing value when the key is present and attribute-safe, AttributeError
otherwise. -/
def attrGetattr (s : AttrS) (k : Key) : Except PyErr PVal :=
  if amem s.mapping k && attrValid k then
    Except.ok (buildA s.seqType ((alookup s.mapping k).getD PVal.vnone))
  else Except.error PyErr.attrError

/-- The string key "zz" (attribute-safe but absent in the witnesses). -/
def kZ : Key := Key.ks ['z', 'z']

/-- Claim C4: on a wrapper with no default factory and a key absent from
the backing mapping, subscript access raises KeyError while attribute-style
and callable-style access raise AttributeError, for both the AttrDict of
attrdict/__init__.py and the Attr of attr.py, so the two error kinds are
distinguishable by the caller. -/
theorem claimC4_error_kinds (s : ADState) (t : AttrS) (k k2 : Key)
    (hf : s.factory = none) (hinv : adInv s)
    (hk : amem s.mapping k = false) (hk2 : amem t.mapping k2 = false) :
    (adGetitem s k).1 = Except.error PyErr.keyError
    ∧ (adGetattr s k).1 = Except.error PyErr.attrError
    ∧ (adCall s k).1 = Except.error PyErr.attrError
    ∧ attrGetitem t k2 = Except.error PyErr.keyError
    ∧ attrCall t k2 = Except.error PyErr.attrError
    ∧ attrGetattr t k2 = Except.error PyErr.attrError := by
  have hlk : alookup s.mapping k = none := alookup_eq_none_of_not_amem _ _ hk
  have hattr : alookup s.attrs k = none := by
    rw [hinv, alookup_mirror, hlk]
    by_cases hv : adValid k <;> simp [hv]
  have hlk2 : alookup t.mapping k2 = none :=
    alookup_eq_none_of_not_amem _ _ hk2
  refine ⟨?_, ?_, ?_, ?_, ?_, ?_⟩
  · unfold adGetitem
    rw [hf]
    simp [hk]
  · unfold adGetattr
    rw [hattr, hf]
  · unfold adCall
    rw [hf]
    simp [hk]
  · unfold attrGetitem
    rw [hlk2]
  · unfold attrCall
    simp [hk2]
  · unfold attrGetattr
    simp [hk2]

/-- Witness for claim C4 on AttrDict({'foo': 1}) and Attr({'foo': 1}) with
the absent key "zz". -/
theorem claimC4_error_kinds_witness :
    (adInit [(kFoo, PVal.vint 1)] true none false).factory = none
    ∧ amem (adInit [(kFoo, PVal.vint 1)] true none false).mapping kZ = false
    ∧ (adGetitem (adInit [(kFoo, PVal.vint 1)] true none false) kZ).1
        = Except.error PyErr.keyError
    ∧ attrGetattr (attrInit [(kFoo, PVal.vint 1)] (some SeqKind.stup)) kZ
        = Except.error PyErr.attrError := by
  have h := claimC4_error_kinds
    (adInit [(kFoo, PVal.vint 1)] true none false)
    (attrInit [(kFoo, PVal.vint 1)] (some SeqKind.stup)) kZ kZ
    rfl (by rfl) (by decide) (by decide)
  exact ⟨rfl, by decide, h.1, h.2.2.2.2.2⟩

/-- A default factory returning 7 when called with no arguments and 9 when
called with the key. -/
def facSeven : Callable := { f0 := PVal.vint 7, f1 := fun _ => PVal.vint 9 }

/-- Claim C9: on an AttrDict configured with a default factory and a key
absent from the backing mapping, get(key, default) returns the given
default and leaves the state (hence the backing mapping) unchanged —
get never reaches the factory, it is `self._mapping.get(key, default)` —
while subscript, attribute and callable access synthesize the factory value
and store it in the backing mapping. -/
theorem claimC9_get_frame (s : ADState) (k : Key) (d : PVal) (c : Callable)
    (hf : s.factory = some c) (hinv : adInv s)
    (hk : amem s.mapping k = false) :
    adGet s k d = (d, s)
    ∧ (adGetitem s k).1 = Except.ok (adSynth s k)
    ∧ alookup ((adGetitem s k).2).mapping k = some (adSynth s k)
    ∧ (adGetattr s k).1 = Except.ok (adSynth s k)
    ∧ alookup ((adGetattr s k).2).mapping k = some (adSynth s k)
    ∧ alookup ((adCall s k).2).mapping k = some (adSynth s k) := by
  have hlk : alookup s.mapping k = none := alookup_eq_none_of_not_amem _ _ hk
  have hattr : alookup s.attrs k = none := by
    rw [hinv, alookup_mirror, hlk]
    by_cases hv : adValid k <;> simp [hv]
  refine ⟨?_, ?_, ?_, ?_, ?_, ?_⟩
  · unfold adGet
    rw [hlk]
    rfl
  · unfold adGetitem adMissing adSet
    rw [hf]
    simp only [hk, Bool.false_eq_true, if_false]
    rw [aupdate_aupdate_self, alookup_aupdate_self]
    rfl
  · unfold adGetitem adMissing adSet
    rw [hf]
    simp only [hk, Bool.false_eq_true, if_false]
    rw [aupdate_aupdate_self, alookup_aupdate_self]
  · unfold adGetattr adMissing
    rw [hattr, hf]
  · unfold adGetattr adMissing
    rw [hattr, hf]
    simp only []
    rw [alookup_aupdate_self]
  · unfold adCall adMissing
    rw [hf]
    simp only [hk, Bool.false_eq_true, if_false]
    rw [alookup_aupdate_self]

/-- Witness for claim C9 on AttrDict({}, default_factory) with the absent
key "zz" and default 5. -/
theorem claimC9_get_frame_witness :
    (adInit [] true (some facSeven) false).factory = some facSeven
    ∧ amem (adInit [] true (some facSeven) false).mapping kZ = false
    ∧ adGet (adInit [] true (some facSeven) false) kZ (PVal.vint 5)
        = (PVal.vint 5, adInit [] true (some facSeven) false)
    ∧ alookup ((adGetitem (adInit [] true (some facSeven) false) kZ).2).mapping
        kZ = some (adSynth (adInit [] true (some facSeven) false) kZ) := by
  have h := claimC9_get_frame (adInit [] true (some facSeven) false) kZ
    (PVal.vint 5) facSeven rfl (by rfl) (by rfl)
  exact ⟨rfl, by rfl, h.1, h.2.2.1⟩

/-- Python `isinstance(obj, Mapping)`: plain dicts and both wrapper kinds are
Mappings. -/
def PVal.isMapping : PVal → Bool
  | PVal.vdict _ => true
  | PVal.vAttrDict _ _ => true
  | PVal.vAttr _ _ => true
  | _ => false

/-- The items a mapping-shaped value exposes through the Mapping interface
(empty for non-mappings, which merge is never given). -/
def PVal.entries : PVal → List (Key × PVal)
  | PVal.vdict m => m
  | PVal.vAttrDict m _ => m
  | PVal.vAttr m _ => m
  | _ => []

/-- Lookup `obj[key]` through the Mapping interface. -/
def mGet (p : PVal) (k : Key) : Option PVal := alookup p.entries k

/-- Python `set(obj)`: the keys of a mapping-shaped value. -/
def mKeys (p : PVal) : List Key := akeys p.entries

theorem alookup_mem (m : List (Key × PVal)) (k : Key) (v : PVal)
    (h : alookup m k = some v) : (k, v) ∈ m := by
  induction m with
  | nil => simp [alookup] at h
  | cons p rest ih =>
      obtain ⟨pk, pv⟩ := p
      by_cases hp : pk = k
      · subst hp
        simp [alookup] at h
        simp [h]
      · simp [alookup, hp] at h
        simp [ih h]

theorem sizeOf_lt_of_mGet (p : PVal) (k : Key) (v : PVal)
    (h : mGet p k = some v) : sizeOf v < sizeOf p := by
  have hm : (k, v) ∈ p.entries := alookup_mem _ _ _ h
  cases p with
  | vdict m =>
      have h1 := List.sizeOf_lt_of_mem hm
      simp [PVal.entries] at h1 ⊢
      omega
  | vAttrDict m b =>
      have h1 := List.sizeOf_lt_of_mem hm
      simp [PVal.entries] at h1 ⊢
      omega
  | vAttr m st =>
      have h1 := List.sizeOf_lt_of_mem hm
      simp [PVal.entries] at h1 ⊢
      omega
  | vnone => simp [PVal.entries] at hm
  | vint n => simp [PVal.entries] at hm
  | vstr cs => simp [PVal.entries] at hm
  | vlist es => simp [PVal.entries] at hm
  | vtup es => simp [PVal.entries] at hm

/-- The items for keys only in the left mapping (`left_keys - right_keys`),
copied from the left as-is, in the left mapping's key order. -/
def lonly (l r : PVal) : List (Key × PVal) :=
  ((mKeys l).filter (fun k => !((mKeys r).contains k))).map
    (fun k => (k, (mGet l k).getD PVal.vnone))

/-- The items for keys only in the right mapping, copied from the right
as-is. -/
def ronly (l r : PVal) : List (Key × PVal) :=
  ((mKeys r).filter (fun k => !((mKeys l).contains k))).map
    (fun k => (k, (mGet r k).getD PVal.vnone))

/-- The keys present in both mappings. -/
def bothKeys (l r : PVal) : List Key :=
  (mKeys l).filter (fun k => (mKeys r).contains k)

/-- The items for the keys present in both mappings (merge, lines 362-367):
when both values are Mappings, a recursive merge; otherwise the right
value. -/
def mergeCore (rec : Bool) (l r : PVal) : List Key → List (Key × PVal)
  | [] => []
  | k :: ks =>
      (k,
        match h1 : mGet l k, h2 : mGet r k with
        | some lv, some rv =>
            if lv.isMapping && rv.isMapping then
              PVal.vAttrDict
                (lonly lv rv ++ ronly lv rv
                  ++ mergeCore rec lv rv (bothKeys lv rv)) rec
            else rv
        | _, _ => PVal.vnone) :: mergeCore rec l r ks
termination_by ks => (sizeOf l + sizeOf r, ks.length)
decreasing_by
  · have a1 := sizeOf_lt_of_mGet l k lv h1
    have a2 := sizeOf_lt_of_mGet r k rv h2
    apply Prod.Lex.left
    omega
  · apply Prod.Lex.right
    simp

/-- The items of merge(left, right, recursive) (attrdict/__init__.py lines
338-369): keys only in left, then keys only in right, then keys in both.
Python set iteration order is unspecified; this embedding fixes one order —
the claim's properties are order-independent. -/
def mergeItems (rec : Bool) (l r : PVal) : List (Key × PVal) :=
  lonly l r ++ ronly l r ++ mergeCore rec l r (bothKeys l r)

/-- merge (attrdict/__init__.py lines 338-369): a new AttrDict (with the
given recursive flag and no default factory) holding the merged items. -/
def merge (rec : Bool) (l r : PVal) : PVal :=
  PVal.vAttrDict (mergeItems rec l r) rec

theorem contains_iff_mem_key (ks : List Key) (k : Key) :
    ks.contains k = true ↔ k ∈ ks := by
  induction ks with
  | nil => simp
  | cons a rest ih =>
      simp [List.contains_cons, ih]

theorem contains_iff_mem_str (cs : List (List Char)) (s : List Char) :
    cs.contains s = true ↔ s ∈ cs := by
  induction cs with
  | nil => simp
  | cons a rest ih =>
      simp [List.contains_cons, ih]

theorem mKeys_contains (p : PVal) (k : Key) :
    (mKeys p).contains k = (mGet p k).isSome :=
  amem_eq_isSome_alookup p.entries k

theorem alookup_append (m1 m2 : List (Key × PVal)) (k : Key) :
    alookup (m1 ++ m2) k =
      match alookup m1 k with
      | some v => some v
      | none => alookup m2 k := by
  induction m1 with
  | nil => simp [alookup]
  | cons p rest ih =>
      by_cases hp : p.1 = k
      · simp [alookup, hp]
      · simp [alookup, hp, ih]

theorem alookup_keyfun_map (ks : List Key) (f : Key → PVal) (k : Key) :
    alookup (ks.map (fun k0 => (k0, f k0))) k
      = if ks.contains k then some (f k) else none := by
  induction ks with
  | nil => simp [alookup]
  | cons a rest ih =>
      by_cases ha : a = k
      · subst ha
        simp [alookup, List.contains_cons]
      · have ha2 : ¬ (k = a) := fun hk => ha hk.symm
        simp [alookup, ha, List.contains_cons, ha2, ih]

theorem contains_filter_key (ks : List Key) (q : Key → Bool) (k : Key) :
    (ks.filter q).contains k = (ks.contains k && q k) := by
  cases hc : ks.contains k with
  | false =>
      have hnm : ¬ (k ∈ ks) := by
        intro hm
        rw [(contains_iff_mem_key ks k).mpr hm] at hc
        cases hc
      have : ¬ (k ∈ ks.filter q) := fun hm => hnm (List.mem_filter.mp hm).1
      cases hcf : (ks.filter q).contains k with
      | false => rfl
      | true => exact absurd ((contains_iff_mem_key _ k).mp hcf) this
  | true =>
      have hm : k ∈ ks := (contains_iff_mem_key ks k).mp hc
      cases hq : q k with
      | false =>
          have : ¬ (k ∈ ks.filter q) := by
            intro hmf
            have := (List.mem_filter.mp hmf).2
            rw [hq] at this
            cases this
          cases hcf : (ks.filter q).contains k with
          | false => rfl
          | true => exact absurd ((contains_iff_mem_key _ k).mp hcf) this
      | true =>
          have : k ∈ ks.filter q := List.mem_filter.mpr ⟨hm, hq⟩
          rw [(contains_iff_mem_key _ k).mpr this]
          rfl

theorem alookup_lonly (l r : PVal) (k : Key) :
    alookup (lonly l r) k
      = if (mKeys l).contains k && !((mKeys r).contains k) then
          some ((mGet l k).getD PVal.vnone)
        else none := by
  unfold lonly
  rw [alookup_keyfun_map, contains_filter_key]

theorem alookup_ronly (l r : PVal) (k : Key) :
    alookup (ronly l r) k
      = if (mKeys r).contains k && !((mKeys l).contains k) then
          some ((mGet r k).getD PVal.vnone)
        else none := by
  unfold ronly
  rw [alookup_keyfun_map, contains_filter_key]

/-- The value merge stores for a key present in both mappings. -/
def mergeBothVal (rec : Bool) (l r : PVal) (k : Key) : PVal :=
  match mGet l k, mGet r k with
  | some lv, some rv =>
      if lv.isMapping && rv.isMapping then merge rec lv rv else rv
  | _, _ => PVal.vnone

theorem alookup_mergeCore (rec : Bool) (l r : PVal) (ks : List Key)
    (k : Key) :
    alookup (mergeCore rec l r ks) k
      = if ks.contains k then some (mergeBothVal rec l r k) else none := by
  induction ks with
  | nil => simp [mergeCore, alookup]
  | cons k0 rest ih =>
      rw [mergeCore]
      by_cases hk : k0 = k
      · subst hk
        have hco : (k0 :: rest).contains k0 = true := by
          simp [List.contains_cons]
        rw [hco]
        simp only [alookup, if_pos rfl, if_true]
        unfold mergeBothVal
        cases hl : mGet l k0 <;> cases hr : mGet r k0 <;>
          simp [hl, hr, merge, mergeItems]
      · have hk2 : ¬ (k = k0) := fun h => hk h.symm
        simp [alookup, hk, hk2, List.contains_cons, ih]

theorem alookup_mergeItems (rec : Bool) (l r : PVal) (k : Key) :
    alookup (mergeItems rec l r) k =
      match mGet l k, mGet r k with
      | some lv, some rv =>
          some (if lv.isMapping && rv.isMapping then merge rec lv rv else rv)
      | some v, none => some v
      | none, some v => some v
      | none, none => none := by
  unfold mergeItems
  rw [alookup_append, alookup_append, alookup_lonly, alookup_ronly,
      alookup_mergeCore]
  unfold bothKeys
  rw [contains_filter_key, mKeys_contains l k, mKeys_contains r k]
  cases hl2 : mGet l k <;> cases hr2 : mGet r k <;>
    simp [hl2, hr2, mergeBothVal]

/-- The string key "x". -/
def kX : Key := Key.ks ['x']

/-- The string key "y". -/
def kY : Key := Key.ks ['y']

/-- The string key "z". -/
def kZ1 : Key := Key.ks ['z']

/-- Claim C1: merge(left, right) returns a new wrapper whose key set is the
union of the two key sets; every key present only in left maps to left's
value as-is, every key present only in right maps to right's value as-is,
and every key present in both maps to merge(left[key], right[key]) when
both values are mapping-shaped, and to right[key] otherwise. -/
theorem claimC1_merge (rec : Bool) (l r : PVal)
    (hl : l.isMapping = true) (hr : r.isMapping = true) :
    (∀ k, k ∈ mKeys (merge rec l r) ↔ (k ∈ mKeys l ∨ k ∈ mKeys r))
    ∧ (∀ k v, mGet l k = some v → mGet r k = none →
        mGet (merge rec l r) k = some v)
    ∧ (∀ k v, mGet r k = some v → mGet l k = none →
        mGet (merge rec l r) k = some v)
    ∧ (∀ k lv rv, mGet l k = some lv → mGet r k = some rv →
        mGet (merge rec l r) k =
          some (if lv.isMapping && rv.isMapping then merge rec lv rv
                else rv)) := by
  have hmg : ∀ k, mGet (merge rec l r) k = alookup (mergeItems rec l r) k :=
    fun k => rfl
  refine ⟨?_, ?_, ?_, ?_⟩
  · intro k
    rw [← contains_iff_mem_key, ← contains_iff_mem_key,
        ← contains_iff_mem_key, mKeys_contains, mKeys_contains,
        mKeys_contains, hmg, alookup_mergeItems]
    cases hl2 : mGet l k <;> cases hr2 : mGet r k <;> simp
  · intro k v h1 h2
    rw [hmg, alookup_mergeItems, h1, h2]
  · intro k v h1 h2
    rw [hmg, alookup_mergeItems, h1, h2]
  · intro k lv rv h1 h2
    rw [hmg, alookup_mergeItems, h1, h2]

/-- Left operand of the deep-merge witness: {'a': {'x': 1, 'y': 2}}. -/
def c1left : PVal :=
  PVal.vdict [(kA, PVal.vdict [(kX, PVal.vint 1), (kY, PVal.vint 2)])]

/-- Right operand of the deep-merge witness: {'a': {'y': 3, 'z': 4}}. -/
def c1right : PVal :=
  PVal.vdict [(kA, PVal.vdict [(kY, PVal.vint 3), (kZ1, PVal.vint 4)])]

/-- Witness for claim C1 at the spec's deep-merge example: the shared key
'a' holds the recursive merge, in which the conflicting scalar at 'y' is
taken from the right. -/
theorem claimC1_merge_witness :
    c1left.isMapping = true
    ∧ mGet (merge true c1left c1right) kA
        = some (merge true
            (PVal.vdict [(kX, PVal.vint 1), (kY, PVal.vint 2)])
            (PVal.vdict [(kY, PVal.vint 3), (kZ1, PVal.vint 4)]))
    ∧ mGet (merge true
            (PVal.vdict [(kX, PVal.vint 1), (kY, PVal.vint 2)])
            (PVal.vdict [(kY, PVal.vint 3), (kZ1, PVal.vint 4)])) kY
        = some (PVal.vint 3) := by
  have h := claimC1_merge true c1left c1right rfl rfl
  have h2 := claimC1_merge true
    (PVal.vdict [(kX, PVal.vint 1), (kY, PVal.vint 2)])
    (PVal.vdict [(kY, PVal.vint 3), (kZ1, PVal.vint 4)]) rfl rfl
  refine ⟨rfl, ?_, ?_⟩
  · have ha := h.2.2.2 kA
      (PVal.vdict [(kX, PVal.vint 1), (kY, PVal.vint 2)])
      (PVal.vdict [(kY, PVal.vint 3), (kZ1, PVal.vint 4)]) rfl rfl
    simpa [PVal.isMapping] using ha
  · have hy := h2.2.2.2 kY (PVal.vint 2) (PVal.vint 3) rfl rfl
    simpa [PVal.isMapping] using hy

/-- An AttrDict built over {'a': 1}. -/
def c3base : ADState := adInit [(kA, PVal.vint 1)] true none false

/-- The same instance after its backing mapping was replaced, through the
backing store directly, with {'a': 2}; the mirrored instance attribute is
untouched. -/
def c3mut : ADState :=
  { c3base with mapping := aupdate c3base.mapping kA (PVal.vint 2) }

/-- Claim C3, counterexample: for the AttrDict of attrdict/__init__.py,
attribute-style access is not re-wrapped at read time: the instance
attribute mirrored at mutation time is returned, so after the backing store
is changed from 1 to 2 at key 'a', dot access still returns 1 while the
build-wrapped form of the currently stored raw value is 2. -/
theorem claimC3_counterexample :
    alookup c3mut.mapping kA = some (PVal.vint 2)
    ∧ buildAD c3mut.recursive (PVal.vint 2) = PVal.vint 2
    ∧ (adGetattr c3mut kA).1 = Except.ok (PVal.vint 1)
    ∧ PVal.vint 1 ≠ PVal.vint 2 := by
  refine ⟨rfl, by simp [buildAD], ?_, ?_⟩
  · have h1 : (adGetattr c3mut kA).1
        = Except.ok (buildAD true (PVal.vint 1)) := rfl
    rw [h1]
    simp [buildAD]
  · intro h
    injection h with h2
    exact absurd h2 (by decide)

/-- Claim C3 (amended): the build rule is applied at read time — so a
backing-store mutation between two reads is visible in the second read —
for Attr's attribute-style and callable-style access and for AttrDict's
callable-style access; AttrDict's attribute-style access instead returns
the value built and mirrored when the key was last set through the wrapper,
even after the backing value was replaced directly. -/
theorem claimC3_read_time_build (m : List (Key × PVal))
    (st : Option SeqKind) (s : ADState) (k : Key) (v w : PVal)
    (hva : attrValid k = true) (hvd : adValid k = true) :
    attrGetattr (attrInit (aupdate m k v) st) k = Except.ok (buildA st v)
    ∧ attrCall (attrInit (aupdate m k v) st) k = Except.ok (buildA st v)
    ∧ (adCall { s with mapping := aupdate s.mapping k v } k).1
        = Except.ok (buildAD s.recursive v)
    ∧ (adGetattr { adSet s k v with
          mapping := aupdate (adSet s k v).mapping k w } k).1
        = Except.ok (buildAD s.recursive v) := by
  have hm1 : amem (aupdate m k v) k = true := amem_aupdate_self m k v
  have hl1 : alookup (aupdate m k v) k = some v := alookup_aupdate_self m k v
  have hm2 : amem (aupdate s.mapping k v) k = true :=
    amem_aupdate_self s.mapping k v
  have hl2 : alookup (aupdate s.mapping k v) k = some v :=
    alookup_aupdate_self s.mapping k v
  refine ⟨?_, ?_, ?_, ?_⟩
  · unfold attrGetattr attrInit
    simp [hm1, hva, hl1]
  · unfold attrCall attrInit
    simp [hm1, hl1]
  · unfold adCall
    simp [hm2, hl2]
  · unfold adGetattr
    have hattr : alookup (aupdate s.attrs k (buildAD s.recursive v)) k
        = some (buildAD s.recursive v) := alookup_aupdate_self _ _ _
    simp [adSet, hvd, hattr]

/-- Witness for the amended claim C3 at key "foo". -/
theorem claimC3_read_time_build_witness :
    attrValid kFoo = true
    ∧ adValid kFoo = true
    ∧ attrGetattr
        (attrInit (aupdate [] kFoo (PVal.vint 3)) (some SeqKind.stup)) kFoo
        = Except.ok (buildA (some SeqKind.stup) (PVal.vint 3)) := by
  have h := claimC3_read_time_build [] (some SeqKind.stup)
    (adInit [] true none false) kFoo (PVal.vint 3) (PVal.vint 9)
    (by decide) (by decide)
  exact ⟨by decide, by decide, h.1⟩

/-- The attribute-safety predicate as claim C5 words it: a string that
matches the regular language [A-Za-z][A-Za-z0-9_]* in full (anchors read as
string boundaries, so non-identifier shapes are excluded) and is not a
class attribute.  Stated for comparison with the code's `valid_name`. -/
def specValidName (classAttrs : List (List Char)) : Key → Bool
  | Key.ks s => matchIdentCore s && !(classAttrs.contains s)
  | Key.ki _ => false

/-- Claim C5, counterexample: the code's predicate accepts the
non-identifier name "ab\n" — Python's re.match with a $ anchor matches just
before a trailing newline — while the claim's reading of the regex
excludes it. -/
theorem claimC5_counterexample :
    valid_name adClassAttrs (Key.ks ['a', 'b', '\n']) = true
    ∧ specValidName adClassAttrs (Key.ks ['a', 'b', '\n']) = false := by
  constructor <;> decide

/-- Claim C5 (amended): the attribute-safety predicate, evaluated against
the concrete class's attribute names at each call, holds iff the name is a
string, is not defined on the class, and either fully matches
[A-Za-z][A-Za-z0-9_]* or is such a match followed by exactly one trailing
newline (the behavior of re.match with the $ anchor); non-strings and all
other shapes, including leading underscores, are excluded. -/
theorem claimC5_valid_name (cs : List (List Char)) (k : Key) :
    valid_name cs k = true ↔
      ∃ str, k = Key.ks str ∧ cs.contains str = false ∧
        (matchIdentCore str = true ∨
          ∃ w, str = w ++ ['\n'] ∧ matchIdentCore w = true) := by
  cases k with
  | ki n => simp [valid_name]
  | ks str =>
      constructor
      · intro h
        unfold valid_name reMatchName at h
        rw [Bool.and_eq_true] at h
        obtain ⟨hmatch, hcs⟩ := h
        refine ⟨str, rfl, by simpa using hcs, ?_⟩
        rw [Bool.or_eq_true] at hmatch
        rcases hmatch with hcore | htail
        · exact Or.inl hcore
        · right
          rw [Bool.and_eq_true] at htail
          obtain ⟨hdrop, hlast⟩ := htail
          have hlast' : str.getLast? = some '\n' := by simpa using hlast
          have hne : str ≠ [] := by
            intro he
            rw [he] at hlast'
            simp at hlast'
          refine ⟨str.dropLast, ?_, hdrop⟩
          have hsplit := List.dropLast_append_getLast hne
          have hg : str.getLast hne = '\n' := by
            have := List.getLast?_eq_getLast str hne
            rw [this] at hlast'
            exact Option.some.inj hlast'
          rw [hg] at hsplit
          exact hsplit.symm
      · rintro ⟨str2, heq, hcs, hmatch⟩
        have he : str = str2 := Key.ks.inj heq
        subst he
        unfold valid_name reMatchName
        have hnotin : ¬ (str ∈ cs) := by
          intro hm
          rw [(contains_iff_mem_str cs str).mpr hm] at hcs
          cases hcs
        rcases hmatch with hcore | ⟨w, hw, hwm⟩
        · simp [hcore, hnotin]
        · subst hw
          have h1 : (w ++ ['\n'] : List Char).dropLast = w := by simp
          have h2 : (w ++ ['\n'] : List Char).getLast? = some '\n' := by
            simp
          simp [h1, h2, hwm, hnotin]

/-- An AttrDefault instance (default.py lines 13-24): `_default_factory`,
`_mapping`, `_sequence_type`, `_pass_key`, `_allow_invalid_attributes`. -/
structure ADefState where
  factory : Option Callable
  mapping : List (Key × PVal)
  seqType : Option SeqKind
  passKey : Bool
  allowInvalid : Bool

/-- AttrDefault.__init__ (default.py lines 13-24). -/
def adefInit (factory : Option Callable) (items : List (Key × PVal))
    (st : Option SeqKind) (passKey : Bool) : ADefState :=
  { factory := factory, mapping := items, seqType := st, passKey := passKey,
    allowInvalid := false }

/-- The value AttrDefault.__missing__ synthesizes (default.py lines 86-95):
`factory(key)` when `_pass_key` is set, else `factory()`. -/
def adefSynth (s : ADefState) (k : Key) : PVal :=
  match s.factory with
  | some c => if s.passKey then c.f1 k else c.f0
  | none => PVal.vnone

/-- AttrDefault.__missing__ (default.py lines 86-95): store the synthesized
value in the backing mapping and return it. -/
def adefMissing (s : ADefState) (k : Key) : PVal × ADefState :=
  (adefSynth s k,
   { s with mapping := aupdate s.mapping k (adefSynth s k) })

/-- AttrDefault.__getitem__ (default.py lines 32-44): the stored value when
present; `self.__missing__(key)` when a factory is configured (a callable
is always truthy); KeyError otherwise. -/
def adefGetitem (s : ADefState) (k : Key) : Except PyErr PVal × ADefState :=
  if amem s.mapping k then
    ((alookup s.mapping k).elim (Except.error PyErr.keyError) Except.ok, s)
  else
    match s.factory with
    | some _ => (Except.ok (adefMissing s k).1, (adefMissing s k).2)
    | none => (Except.error PyErr.keyError, s)

/-- Attr.__getstate__ (attr.py lines 192-198): `(self._mapping,
self._sequence_type)`. -/
def attrGetstate (s : AttrS) : List (Key × PVal) × Option SeqKind :=
  (s.mapping, s.seqType)

/-- Attr.__setstate__ (attr.py lines 200-205): re-run __init__ on the
stored items and sequence_type. -/
def attrSetstate (st : List (Key × PVal) × Option SeqKind) : AttrS :=
  attrInit st.1 st.2

/-- AttrDefault.__getstate__ (default.py lines 97-107): the five-tuple
`(default_factory, mapping, sequence_type, pass_key,
allow_invalid_attributes)`. -/
def adefGetstate (s : ADefState) :
    Option Callable × List (Key × PVal) × Option SeqKind × Bool × Bool :=
  (s.factory, s.mapping, s.seqType, s.passKey, s.allowInvalid)

/-- AttrDefault.__setstate__ (default.py lines 109-124): restore all five
fields from the stored state. -/
def adefSetstate
    (st : Option Callable × List (Key × PVal) × Option SeqKind × Bool × Bool) :
    ADefState :=
  { factory := st.1, mapping := st.2.1, seqType := st.2.2.1,
    passKey := st.2.2.2.1, allowInvalid := st.2.2.2.2 }

/-- Claim C6: on a wrapper configured with a default factory and a key
absent from the backing mapping, a read of that key synthesizes
`factory(key)` when pass_key is set and `factory()` otherwise, stores the
synthesized value under the key in the backing mapping, and returns it —
for AttrDict's __missing__ and __getitem__ (attrdict/__init__.py lines
250-259 and 173-182) and AttrDefault's __missing__ and __getitem__
(default.py lines 86-95 and 32-44). -/
theorem claimC6_default_factory (s : ADState) (t : ADefState) (k k2 : Key)
    (c c2 : Callable) (hf : s.factory = some c) (hk : amem s.mapping k = false)
    (hf2 : t.factory = some c2) (hk2 : amem t.mapping k2 = false) :
    adSynth s k = (if s.passKey then c.f1 k else c.f0)
    ∧ (adMissing s k).1 = adSynth s k
    ∧ alookup ((adMissing s k).2).mapping k = some (adSynth s k)
    ∧ (adGetitem s k).1 = Except.ok (adSynth s k)
    ∧ alookup ((adGetitem s k).2).mapping k = some (adSynth s k)
    ∧ adefSynth t k2 = (if t.passKey then c2.f1 k2 else c2.f0)
    ∧ (adefMissing t k2).1 = adefSynth t k2
    ∧ alookup ((adefMissing t k2).2).mapping k2 = some (adefSynth t k2)
    ∧ (adefGetitem t k2).1 = Except.ok (adefSynth t k2)
    ∧ alookup ((adefGetitem t k2).2).mapping k2 = some (adefSynth t k2) := by
  refine ⟨?_, rfl, ?_, ?_, ?_, ?_, rfl, ?_, ?_, ?_⟩
  · unfold adSynth
    rw [hf]
  · unfold adMissing
    simp only []
    rw [alookup_aupdate_self]
  · unfold adGetitem adMissing adSet
    rw [hf]
    simp only [hk, Bool.false_eq_true, if_false]
    rw [aupdate_aupdate_self, alookup_aupdate_self]
    rfl
  · unfold adGetitem adMissing adSet
    rw [hf]
    simp only [hk, Bool.false_eq_true, if_false]
    rw [aupdate_aupdate_self, alookup_aupdate_self]
  · unfold adefSynth
    rw [hf2]
  · unfold adefMissing
    simp only []
    rw [alookup_aupdate_self]
  · unfold adefGetitem
    rw [hf2]
    simp only [hk2, Bool.false_eq_true, if_false]
    rfl
  · unfold adefGetitem adefMissing
    rw [hf2]
    simp only [hk2, Bool.false_eq_true, if_false]
    rw [alookup_aupdate_self]

/-- Witness for claim C6: an AttrDict with a pass_key factory and an
AttrDefault with a no-argument factory, both reading the absent key
"zz". -/
theorem claimC6_default_factory_witness :
    (adInit [] true (some facSeven) true).factory = some facSeven
    ∧ amem (adInit [] true (some facSeven) true).mapping kZ = false
    ∧ (adGetitem (adInit [] true (some facSeven) true) kZ).1
        = Except.ok (PVal.vint 9)
    ∧ (adefGetitem (adefInit (some facSeven) [] none false) kZ).1
        = Except.ok (PVal.vint 7) := by
  have h := claimC6_default_factory (adInit [] true (some facSeven) true)
    (adefInit (some facSeven) [] none false) kZ kZ facSeven facSeven
    rfl rfl rfl rfl
  refine ⟨rfl, rfl, ?_, ?_⟩
  · rw [h.2.2.2.1]
    rfl
  · rw [h.2.2.2.2.2.2.2.2.1]
    rfl

/-- Claim C7: deserializing the serialized state yields an equal wrapper
with all configuration preserved — for Attr, __setstate__ of __getstate__
restores the mapping and sequence_type; for AttrDefault it restores the
default factory, mapping, sequence_type, pass_key and the private
allow_invalid_attributes flag — so nested-sequence wrapping and default
synthesis behave identically after the round trip. -/
theorem claimC7_roundtrip (a : AttrS) (t : ADefState) :
    attrSetstate (attrGetstate a) = a
    ∧ adefSetstate (adefGetstate t) = t := by
  exact ⟨rfl, rfl⟩

/-- MutableAttr.__setattr__ without force (mutableattr.py lines 22-33):
TypeError for attribute-unsafe names.  For attribute-safe names the body is
`self._set(key, value)`, but no `_set` method exists on MutableAttr or Attr
in this source tree, so the lookup of `_set` falls through to
Attr.__getattr__, which raises AttributeError (`_set` is not an
attribute-safe key); the backing mapping is never modified either way. -/
def maSetattr (s : AttrS) (k : Key) (_v : PVal) : AttrS × Option PyErr :=
  if maValid k then (s, some PyErr.attrError)
  else (s, some PyErr.typeError)

/-- MutableAttr._delete (mutableattr.py lines 62-71): `del
self._mapping[key]` first (KeyError when absent), then for attribute-safe
keys `super().__delattr__(key, True)`; Attr.__delattr__ (attr.py lines
133-142) ignores its force parameter and raises TypeError unconditionally,
so the deletion mutates the backing mapping and then raises. -/
def maDelete (s : AttrS) (k : Key) : AttrS × Option PyErr :=
  if amem s.mapping k then
    if maValid k then
      ({ s with mapping := adelete s.mapping k }, some PyErr.typeError)
    else ({ s with mapping := adelete s.mapping k }, none)
  else (s, some PyErr.keyError)

/-- MutableAttr.__delattr__ (mutableattr.py lines 35-42): TypeError when
the name is attribute-unsafe or absent from the backing mapping, else the
_delete primitive. -/
def maDelattr (s : AttrS) (k : Key) : AttrS × Option PyErr :=
  if maValid k && amem s.mapping k then maDelete s k
  else (s, some PyErr.typeError)

/-- Claim C8, evaluated at the failing input: on MutableAttr({'foo':
'bar'}), deleting the present, attribute-safe key 'foo' through the
attribute syntax removes it from the backing mapping but then raises
TypeError, because Attr.__delattr__ ignores the force=True that
MutableAttr._delete passes; the AttrDict variant of attrdict/__init__.py
performs the same deletion without error, and assigning to the
attribute-unsafe name '_x' raises TypeError leaving the backing mapping
unchanged. -/
theorem claimC8_delete_bug :
    (maDelattr (attrInit [(kFoo, PVal.vstr ['b', 'a', 'r'])]
        (some SeqKind.stup)) kFoo).2 = some PyErr.typeError
    ∧ alookup ((maDelattr (attrInit [(kFoo, PVal.vstr ['b', 'a', 'r'])]
        (some SeqKind.stup)) kFoo).1).mapping kFoo = none
    ∧ (maSetattr (attrInit [(kFoo, PVal.vstr ['b', 'a', 'r'])]
        (some SeqKind.stup)) kUnder (PVal.vint 1))
        = (attrInit [(kFoo, PVal.vstr ['b', 'a', 'r'])] (some SeqKind.stup),
           some PyErr.typeError)
    ∧ (adDelattr (adInit [(kFoo, PVal.vstr ['b', 'a', 'r'])] true none false)
        kFoo).2 = none
    ∧ alookup ((adDelattr (adInit [(kFoo, PVal.vstr ['b', 'a', 'r'])] true
        none false) kFoo).1).mapping kFoo = none := by
  exact ⟨rfl, rfl, rfl, rfl, rfl⟩

/-- Modelled from the spec: attr.py imports merge from attrdict/merge.py,
which is not under src; per spec section 4.3 the algorithm is the same
right-biased recursive merge as attrdict/__init__.py's merge, so its item
computation is reused here.  Only the resulting items matter to Attr.__add__,
and claim C10 concerns only the resulting sequence_type. -/
def mergeSpecItems (l r : List (Key × PVal)) : List (Key × PVal) :=
  mergeItems true (PVal.vdict l) (PVal.vdict r)

/-- Attr.__add__ (attr.py lines 144-163): NotImplemented for non-mappings
(both operands are Attr instances here); sequence_type starts as tuple and
becomes self's when the other operand's sequence_type equals self's; the
result is Attr(merge(self, other), sequence_type). -/
def attrAdd (a b : AttrS) : AttrS :=
  attrInit (mergeSpecItems a.mapping b.mapping)
    (if b.seqType = a.seqType then a.seqType else some SeqKind.stup)

/-- Attr.__radd__ (attr.py lines 165-184): as __add__ with the operands of
merge swapped; self is the right operand of +. -/
def attrRadd (a b : AttrS) : AttrS :=
  attrInit (mergeSpecItems b.mapping a.mapping)
    (if b.seqType = a.seqType then a.seqType else some SeqKind.stup)

/-- Claim C10: for Attr instances a and b, a + b carries a's sequence type
when b's equals a's and the default tuple when they differ; the same rule
applies to the right-addition form. -/
theorem claimC10_seqtype (a b : AttrS) :
    (b.seqType = a.seqType →
      (attrAdd a b).seqType = a.seqType
      ∧ (attrRadd a b).seqType = a.seqType)
    ∧ (b.seqType ≠ a.seqType →
      (attrAdd a b).seqType = some SeqKind.stup
      ∧ (attrRadd a b).seqType = some SeqKind.stup) := by
  constructor
  · intro h
    unfold attrAdd attrRadd attrInit
    simp [h]
  · intro h
    unfold attrAdd attrRadd attrInit
    simp [h]

/-- Witness for claim C10: equal list sequence types keep list; a list and
a None sequence type fall back to tuple. -/
theorem claimC10_seqtype_witness :
    (attrAdd (attrInit [] (some SeqKind.slist))
      (attrInit [] (some SeqKind.slist))).seqType = some SeqKind.slist
    ∧ (attrAdd (attrInit [] (some SeqKind.slist))
      (attrInit [] none)).seqType = some SeqKind.stup := by
  refine ⟨((claimC10_seqtype (attrInit [] (some SeqKind.slist))
      (attrInit [] (some SeqKind.slist))).1 rfl).1,
    ((claimC10_seqtype (attrInit [] (some SeqKind.slist))
      (attrInit [] none)).2 (by decide)).1⟩
